import Mathlib

/-!
Verification of the Flash Storefront PWA core: the offline checkout queue and
replay pass of `public/sw.js`, and the notification-campaign audience filter,
dispatch engine, scheduler and order endpoint of the Express server.
Timestamps are modelled as `Int` milliseconds, payload JSON bodies as plain
strings, and the remote network as explicit oracles.
-/

/- ------------------------------------------------------------------ -/
/- Offline checkout queue (public/sw.js)                              -/
/- ------------------------------------------------------------------ -/

/-- A checkout payload as posted by the client: an `id` plus the rest of the
JSON body, which the service worker treats as an atom. -/
structure Payload where
  id : String
  body : String
deriving DecidableEq

/-- A record of the `checkoutQueue` object store: `{ id: payload.id, payload,
queuedAt: Date.now() }` (sw.js `enqueueCheckout`). -/
structure QueueItem where
  id : String
  payload : Payload
  queuedAt : Int
deriving DecidableEq

/-- The `checkoutQueue` store uses `keyPath: 'id'`, so IndexedDB keeps its
records in a b-tree ordered by `id`; we represent the store as the list of
records in key order, comparing keys by their character data (the
lexicographic string order). -/
def SortedById (s : List QueueItem) : Prop :=
  List.Pairwise (fun a b => a.id.data < b.id.data) s

/-- IndexedDB `store.put`: insert at the key position, replacing any existing
record with the same key. -/
def putItem : List QueueItem → QueueItem → List QueueItem
  | [], it => [it]
  | x :: xs, it =>
    if it.id.data < x.id.data then it :: x :: xs
    else if it.id = x.id then it :: xs
    else x :: putItem xs it

/-- sw.js `enqueueCheckout`: `store.put({ id: payload.id, payload, queuedAt:
Date.now() })`. -/
def enqueueCheckout (payload : Payload) (now : Int) (store : List QueueItem) :
    List QueueItem :=
  putItem store { id := payload.id, payload := payload, queuedAt := now }

/-- sw.js `getAllQueuedCheckouts`: `store.getAll()`, which returns the records
in key order. -/
def getAllQueuedCheckouts (store : List QueueItem) : List QueueItem :=
  store

/-- sw.js `deleteQueuedCheckout`: `store.delete(id)`. -/
def deleteQueuedCheckout (store : List QueueItem) (id : String) :
    List QueueItem :=
  store.filter (fun x => x.id ≠ id)

/-- Messages the worker posts back to window clients during a replay pass:
`CHECKOUT_SYNC_COMPLETE { success, order, reason? }` and
`CHECKOUT_SYNC_PENDING { count }`. -/
inductive SWEvent where
  | syncComplete (success : Bool) (order : Payload) (reason : Option String)
  | syncPending (count : Nat)
deriving DecidableEq

/-- The expiry test of `processCheckoutQueue`: `ageMinutes = (Date.now() -
item.queuedAt) / (1000 * 60)` exceeds `72 * 60`, i.e. the item is older than
72 hours in milliseconds. -/
def itemExpired (now : Int) (item : QueueItem) : Bool :=
  now - item.queuedAt > 72 * 60 * 60 * 1000

/-- The `for (const item of queue)` loop of `processCheckoutQueue`. `submit`
is the network oracle for `fetch(API/orders, { body: item.payload })`: `true`
means the response was ok, `false` a network error or non-2xx status.
Returns the store after the loop and the `CHECKOUT_SYNC_COMPLETE` events
emitted, in order. An expired item is deleted and reported with
`reason = "expired"` and the loop continues; a fresh item is posted, deleted
on success, and the loop `break`s on failure. -/
def processItems (now : Int) (submit : Payload → Bool)
    (store : List QueueItem) : List QueueItem → List QueueItem × List SWEvent
  | [] => (store, [])
  | item :: rest =>
    if itemExpired now item then
      let r := processItems now submit (deleteQueuedCheckout store item.id) rest
      (r.1, SWEvent.syncComplete false item.payload (some "expired") :: r.2)
    else if submit item.payload then
      let r := processItems now submit (deleteQueuedCheckout store item.id) rest
      (r.1, SWEvent.syncComplete true item.payload none :: r.2)
    else
      (store, [])

/-- sw.js `processCheckoutQueue`: read the whole queue; if empty broadcast a
zero pending count; otherwise run the loop, then broadcast the pending count
re-read from the store (`sendQueueStatus`). -/
def processCheckoutQueue (now : Int) (submit : Payload → Bool)
    (store : List QueueItem) : List QueueItem × List SWEvent :=
  let queue := getAllQueuedCheckouts store
  if queue.isEmpty then
    (store, [SWEvent.syncPending 0])
  else
    let r := processItems now submit store queue
    (r.1, r.2 ++ [SWEvent.syncPending (getAllQueuedCheckouts r.1).length])

/- ------------------------------------------------------------------ -/
/- Notification server (server.js): audience filter                   -/
/- ------------------------------------------------------------------ -/

/-- The four notification categories of `types.ts`. -/
inductive NotificationCategory where
  | flashSales
  | newArrivals
  | priceDrops
  | backInStock
deriving DecidableEq

/-- The `preferences.quietHours` object; `startHHMM`/`endHHMM` hold the raw
`quiet.start`/`quiet.end` strings (the timezone only feeds the wall-clock
computation, which is abstracted below). -/
structure QuietHours where
  enabled : Bool
  startHHMM : String
  endHHMM : String
deriving DecidableEq

/-- A subscription's `preferences`: one opt-in flag per category, the
quiet-hours window, and the `mutedUntil` timestamp. -/
structure Preferences where
  flashSales : Bool
  newArrivals : Bool
  priceDrops : Bool
  backInStock : Bool
  quietHours : Option QuietHours
  mutedUntil : Option Int
deriving DecidableEq

/-- The dynamic lookup `preferences[category]`. -/
def prefCategory (p : Preferences) : NotificationCategory → Bool
  | NotificationCategory.flashSales => p.flashSales
  | NotificationCategory.newArrivals => p.newArrivals
  | NotificationCategory.priceDrops => p.priceDrops
  | NotificationCategory.backInStock => p.backInStock

/-- A stored push subscription (`subscriptions` collection). -/
structure Subscription where
  endpoint : String
  preferences : Option Preferences
  expirationTime : Option Int
deriving DecidableEq

/-- server.js `minutesFromHHMM`: `null` unless the string matches
`/^\d{2}:\d{2}$/`, else `hours * 60 + minutes`. -/
def minutesFromHHMM (value : String) : Option Int :=
  match value.toList with
  | [h₁, h₂, sep, m₁, m₂] =>
    if h₁.isDigit && h₂.isDigit && sep = ':' && m₁.isDigit && m₂.isDigit then
      some ((Int.ofNat (h₁.toNat - 48) * 10 + Int.ofNat (h₂.toNat - 48)) * 60
        + (Int.ofNat (m₁.toNat - 48) * 10 + Int.ofNat (m₂.toNat - 48)))
    else none
  | _ => none

/-- server.js `isWithinQuietHours`. The `Intl.DateTimeFormat` computation of
the local wall-clock minutes-since-midnight in `quiet.timezone` is abstracted
as the `currentMinutes` argument; everything after it is translated verbatim:
no quiet-hours object or `enabled: false` means not within; a malformed start
or end means not within; otherwise the straight or midnight-wrapping window
test. -/
def isWithinQuietHours (preferences : Option Preferences)
    (currentMinutes : Int) : Bool :=
  match preferences with
  | none => false
  | some prefs =>
    match prefs.quietHours with
    | none => false
    | some quiet =>
      if !quiet.enabled then false
      else
        match minutesFromHHMM quiet.startHHMM, minutesFromHHMM quiet.endHHMM with
        | some start, some «end» =>
          if start ≤ «end» then currentMinutes ≥ start && currentMinutes < «end»
          else currentMinutes ≥ start || currentMinutes < «end»
        | _, _ => false

/-- server.js `isTemporarilyMuted`: muted iff `mutedUntil` is set and lies
strictly after `now`. -/
def isTemporarilyMuted (preferences : Option Preferences) (now : Int) : Bool :=
  match preferences with
  | none => false
  | some prefs =>
    match prefs.mutedUntil with
    | none => false
    | some m => m > now

/-- The per-subscription test inside `filterEligibleSubscriptions`:
keep a subscription iff `preferences?.[category]` is true, it is not
temporarily muted, it is not within quiet hours, and its `expirationTime`
is not set to an instant strictly before `now`. -/
def eligibleSubscription (now currentMinutes : Int)
    (category : NotificationCategory) (sub : Subscription) : Bool :=
  (match sub.preferences with
   | none => false
   | some p => prefCategory p category)
  && !isTemporarilyMuted sub.preferences now
  && !isWithinQuietHours sub.preferences currentMinutes
  && !(match sub.expirationTime with
       | none => false
       | some e => e < now)

/-- server.js `filterEligibleSubscriptions`. -/
def filterEligibleSubscriptions (subscriptions : List Subscription)
    (category : NotificationCategory) (now currentMinutes : Int) :
    List Subscription :=
  subscriptions.filter (eligibleSubscription now currentMinutes category)

/-- The audience predicate exactly as the spec words it (§4.4): eligible iff
`preferences[C] == true`, `mutedUntil` null or `≤ now`, not within quiet
hours, and `expirationTime` null or strictly greater than `now`. -/
def audienceFilterSpec (sub : Subscription) (category : NotificationCategory)
    (now currentMinutes : Int) : Bool :=
  (match sub.preferences with
   | none => false
   | some p => prefCategory p category)
  && (match sub.preferences with
      | none => true
      | some p =>
        match p.mutedUntil with
        | none => true
        | some m => m ≤ now)
  && !isWithinQuietHours sub.preferences currentMinutes
  && (match sub.expirationTime with
      | none => true
      | some e => e > now)

/-- The spec's audience predicate with the expiration bound amended to what
the code implements: `expirationTime` null or `≥ now`. -/
def audienceFilterSpecGe (sub : Subscription) (category : NotificationCategory)
    (now currentMinutes : Int) : Bool :=
  (match sub.preferences with
   | none => false
   | some p => prefCategory p category)
  && (match sub.preferences with
      | none => true
      | some p =>
        match p.mutedUntil with
        | none => true
        | some m => m ≤ now)
  && !isWithinQuietHours sub.preferences currentMinutes
  && (match sub.expirationTime with
      | none => true
      | some e => e ≥ now)

/- ------------------------------------------------------------------ -/
/- Notification server: dispatch engine                                -/
/- ------------------------------------------------------------------ -/

/-- Default notification TTL (`DEFAULT_NOTIFICATION_TTL`, one hour). -/
def DEFAULT_TTL_SECONDS : Int := 60 * 60

/-- Outcome of one `webpush.sendNotification` call: delivered, rejected with
410/404 (endpoint gone, subscription pruned), or any other failure. -/
inductive PushOutcome where
  | ok
  | gone
  | fail
deriving DecidableEq

/-- One push attempt as recorded by the fan-out of `dispatchCampaign`. -/
structure PushRecord where
  endpoint : String
  campaignId : String
  notificationId : String
  category : NotificationCategory
  ttl : Int
deriving DecidableEq

/-- One document of the `campaignEvents` collection (metadata reduced to the
`audience`/`delivered` fields `dispatchCampaign` writes). -/
structure CampaignEvent where
  campaignId : Option String
  notificationId : Option String
  event : String
  category : NotificationCategory
  audience : Option Nat
  delivered : Option Nat
deriving DecidableEq

/-- A campaign object: the descriptor built by `/api/send-notification`
together with the persisted fields (`_id` is `dbId`, `none` for the throwaway
identity of an immediate dispatch). -/
structure Campaign where
  dbId : Option String
  campaignId : String
  notificationId : String
  category : NotificationCategory
  title : String
  body : String
  url : String
  ttl : Option Int
  sendAt : Option Int
  status : String
  sentAt : Option Int
  successCount : Option Nat
  audienceCount : Option Nat
deriving DecidableEq

/-- The server-side persisted state touched by a dispatch. -/
structure ServerState where
  subscriptions : List Subscription
  campaigns : List Campaign
  campaignEvents : List CampaignEvent
  pushLog : List PushRecord
deriving DecidableEq

/-- server.js `dispatchCampaign`, with the push transport abstracted as the
`outcome` oracle per endpoint. It queries the subscriptions opted into the
campaign's category, applies `filterEligibleSubscriptions`, sends the payload
to every eligible subscription with the campaign TTL, prunes subscriptions
whose endpoint reported gone, counts successes, records one `deliver` event
with `{audience, delivered}` metadata, and — when the campaign has a `_id` —
sets the stored document's `status` to `"sent"` with `sentAt` and the final
counts. Note the function never reads the stored `status` before sending. -/
def dispatchCampaign (outcome : String → PushOutcome)
    (now currentMinutes : Int) (c : Campaign) (st : ServerState) :
    ServerState :=
  let audience := st.subscriptions.filter (fun s =>
    match s.preferences with
    | none => false
    | some p => prefCategory p c.category)
  let eligible := filterEligibleSubscriptions audience c.category now currentMinutes
  let ttl := match c.ttl with
    | some t => t
    | none => DEFAULT_TTL_SECONDS
  let successCount :=
    (eligible.filter (fun s => outcome s.endpoint = PushOutcome.ok)).length
  let goneEndpoints :=
    (eligible.filter (fun s => outcome s.endpoint = PushOutcome.gone)).map
      Subscription.endpoint
  let markSent (d : Campaign) : Campaign :=
    { d with
      status := "sent"
      sentAt := some now
      successCount := some successCount
      audienceCount := some eligible.length }
  let deliverEvent : CampaignEvent :=
    { campaignId := some c.campaignId
      notificationId := some c.notificationId
      event := "deliver"
      category := c.category
      audience := some eligible.length
      delivered := some successCount }
  let pushRecordFor (s : Subscription) : PushRecord :=
    { endpoint := s.endpoint
      campaignId := c.campaignId
      notificationId := c.notificationId
      category := c.category
      ttl := ttl }
  { subscriptions :=
      st.subscriptions.filter (fun s => !goneEndpoints.contains s.endpoint)
    campaigns :=
      match c.dbId with
      | none => st.campaigns
      | some did =>
        st.campaigns.map (fun d => if d.dbId = some did then markSent d else d)
    campaignEvents := st.campaignEvents ++ [deliverEvent]
    pushLog := st.pushLog ++ eligible.map pushRecordFor }

/- ------------------------------------------------------------------ -/
/- Notification server: scheduler                                      -/
/- ------------------------------------------------------------------ -/

/-- The in-memory `scheduledCampaigns` map, reduced to each armed timer's key
and absolute fire instant (`setTimeout(..., delay)` armed at `now` fires at
`now + delay`). -/
abbrev TimerRegistry := List (String × Int)

/-- JS `Map.set`: overwrite in place, else append. -/
def registrySet : TimerRegistry → String → Int → TimerRegistry
  | [], key, fireAt => [(key, fireAt)]
  | e :: rest, key, fireAt =>
    if e.1 = key then (key, fireAt) :: rest
    else e :: registrySet rest key fireAt

/-- Lookup of an armed timer, as `scheduledCampaigns.get` would see it. -/
def registryGet (reg : TimerRegistry) (key : String) : Option Int :=
  (reg.find? (fun e => e.1 = key)).map Prod.snd

/-- The key under which a timer is registered: `String(campaign._id)`. -/
def campaignKey (c : Campaign) : String :=
  match c.dbId with
  | some s => s
  | none => "undefined"

/-- What a `scheduleCampaignDispatch` call (or a sequence of them) produced:
the armed timers and the campaigns dispatched immediately. -/
structure ScheduleResult where
  registry : TimerRegistry
  immediate : List Campaign
deriving DecidableEq

/-- server.js `scheduleCampaignDispatch`: `delay = sendAt - now`; when the
delay is not positive the campaign is dispatched immediately, otherwise a
timeout firing `dispatchCampaign` at the absolute instant `sendAt` is armed
under the campaign's key. (A missing `sendAt` makes the JS delay `NaN`, which
fails `delay <= 0` and arms an immediately-firing timeout; the callers only
ever pass campaigns with `sendAt` set, and our claims only use that case.) -/
def scheduleCampaignDispatch (now : Int) (c : Campaign) (reg : TimerRegistry) :
    ScheduleResult :=
  match c.sendAt with
  | none => { registry := registrySet reg (campaignKey c) now, immediate := [] }
  | some t =>
    if t - now ≤ 0 then { registry := reg, immediate := [c] }
    else { registry := registrySet reg (campaignKey c) t, immediate := [] }

/-- The Mongo query of `bootstrapCampaignScheduler`:
`{ status: "scheduled", sendAt: { $gte: new Date() } }`. -/
def isUpcoming (now : Int) (c : Campaign) : Bool :=
  c.status = "scheduled"
  && (match c.sendAt with
      | some t => now ≤ t
      | none => false)

/-- The `upcoming.forEach((campaign) => scheduleCampaignDispatch(campaign))`
loop, threading the timer registry. -/
def armAll (now : Int) (l : List Campaign) (acc : ScheduleResult) :
    ScheduleResult :=
  l.foldl (fun r c =>
    let s := scheduleCampaignDispatch now c r.registry
    { registry := s.registry, immediate := r.immediate ++ s.immediate }) acc

/-- server.js `bootstrapCampaignScheduler`: on process start, re-arm a trigger
for every persisted campaign still scheduled with a non-past `sendAt`. -/
def bootstrapCampaignScheduler (now : Int) (campaigns : List Campaign) :
    ScheduleResult :=
  armAll now (campaigns.filter (isUpcoming now))
    { registry := [], immediate := [] }

/- ------------------------------------------------------------------ -/
/- Worker sync triggers (sw.js message / sync listeners)               -/
/- ------------------------------------------------------------------ -/

/-- The client→worker message contract handled by the sw.js `message`
listener. -/
inductive WorkerMessage where
  | queueCheckout (payload : Payload)
  | syncStatusRequest
  | triggerCheckoutSync
deriving DecidableEq

/-- Which messages make the listener call `processCheckoutQueue`: exactly
`TRIGGER_CHECKOUT_SYNC`, unconditionally — the listener consults no
in-progress flag (none exists in sw.js). -/
def messageStartsReplay : WorkerMessage → Bool
  | WorkerMessage.triggerCheckoutSync => true
  | _ => false

/-- The sw.js `sync` listener: a background-sync event with tag
`"checkout-sync"` calls `processCheckoutQueue`, again unconditionally. -/
def syncTagStartsReplay (tag : String) : Bool :=
  tag = "checkout-sync"

/-- Effect of one incoming message on the number of replay passes currently
in flight: since the listener starts `processCheckoutQueue` without checking
any guard, a trigger always adds a pass, whatever is already running. -/
def onTriggerMessage (inFlight : Nat) (m : WorkerMessage) : Nat :=
  if messageStartsReplay m then inFlight + 1 else inFlight

/-- Effect of one background-sync event on the number of in-flight passes. -/
def onSyncEvent (inFlight : Nat) (tag : String) : Nat :=
  if syncTagStartsReplay tag then inFlight + 1 else inFlight

/- ------------------------------------------------------------------ -/
/- Order endpoint (POST /api/orders)                                   -/
/- ------------------------------------------------------------------ -/

/-- The request body of `POST /api/orders`, reduced to the fields the handler
reads (`id` optional, `createdAt` optional, the rest opaque). -/
structure OrderPayload where
  id : Option String
  createdAt : Option Int
  rest : String
deriving DecidableEq

/-- One document of the `orders` collection. -/
structure OrderRecord where
  id : String
  createdAt : Int
  processedAt : Int
  status : String
  correlationId : String
  rest : String
deriving DecidableEq

/-- Mongo `orders.updateOne({ id }, { $set: record }, { upsert: true })`:
replace the document matching the id, else insert. -/
def upsertOrder : List OrderRecord → OrderRecord → List OrderRecord
  | [], r => [r]
  | o :: rest, r =>
    if o.id = r.id then r :: rest
    else o :: upsertOrder rest r

/-- The HTTP response of the orders handler. -/
inductive OrdersResult where
  | badRequest
  | ok (id : String) (status : String) (processedAt : Int)
deriving DecidableEq

/-- server.js `app.post("/api/orders")`: reject a payload without `id` with a
400 and no write; otherwise build the order record (`createdAt` defaulted to
now, `processedAt = now`, `status = "processed"`, a fresh `correlationId`),
upsert it on `id`, and answer 200 with `{ id, status, processedAt }`. -/
def postOrders (now : Int) (corrId : String) (p : OrderPayload)
    (orders : List OrderRecord) : OrdersResult × List OrderRecord :=
  match p.id with
  | none => (OrdersResult.badRequest, orders)
  | some i =>
    let record : OrderRecord :=
      { id := i,
        createdAt := match p.createdAt with
          | some t => t
          | none => now,
        processedAt := now, status := "processed",
        correlationId := corrId, rest := p.rest }
    (OrdersResult.ok i record.status record.processedAt,
     upsertOrder orders record)

/- ------------------------------------------------------------------ -/
/- Queue store lemmas                                                  -/
/- ------------------------------------------------------------------ -/

theorem putItem_mem {s : List QueueItem} {it y : QueueItem}
    (h : y ∈ putItem s it) : y = it ∨ y ∈ s := by
  induction s with
  | nil => simpa [putItem] using h
  | cons x xs ih =>
    by_cases h1 : it.id.data < x.id.data
    · simp only [putItem, if_pos h1, List.mem_cons] at h
      rcases h with h | h | h
      · exact Or.inl h
      · exact Or.inr (List.mem_cons.mpr (Or.inl h))
      · exact Or.inr (List.mem_cons.mpr (Or.inr h))
    · by_cases h2 : it.id = x.id
      · simp only [putItem, if_neg h1, if_pos h2, List.mem_cons] at h
        rcases h with h | h
        · exact Or.inl h
        · exact Or.inr (List.mem_cons.mpr (Or.inr h))
      · simp only [putItem, if_neg h1, if_neg h2, List.mem_cons] at h
        rcases h with h | h
        · exact Or.inr (List.mem_cons.mpr (Or.inl h))
        · rcases ih h with h' | h'
          · exact Or.inl h'
          · exact Or.inr (List.mem_cons.mpr (Or.inr h'))

theorem putItem_sorted {s : List QueueItem} (it : QueueItem)
    (h : SortedById s) : SortedById (putItem s it) := by
  induction s with
  | nil => simp [putItem, SortedById]
  | cons x xs ih =>
    rw [SortedById, List.pairwise_cons] at h
    obtain ⟨hx, hxs⟩ := h
    by_cases h1 : it.id.data < x.id.data
    · have he : putItem (x :: xs) it = it :: x :: xs := by
        simp [putItem, h1]
      rw [he, SortedById, List.pairwise_cons]
      refine ⟨?_, ?_⟩
      · intro y hy
        rcases List.mem_cons.mp hy with rfl | hy'
        · exact h1
        · exact lt_trans h1 (hx y hy')
      · rw [List.pairwise_cons]
        exact ⟨hx, hxs⟩
    · by_cases h2 : it.id = x.id
      · have he : putItem (x :: xs) it = it :: xs := by
          simp [putItem, h1, h2]
        rw [he, SortedById, List.pairwise_cons]
        refine ⟨fun y hy => ?_, hxs⟩
        rw [h2]
        exact hx y hy
      · have he : putItem (x :: xs) it = x :: putItem xs it := by
          simp [putItem, h1, h2]
        rw [he, SortedById, List.pairwise_cons]
        refine ⟨?_, ih hxs⟩
        intro y hy
        rcases putItem_mem hy with rfl | hy'
        · exact lt_of_le_of_ne (not_lt.mp h1) (fun e => h2 (String.ext e.symm))
        · exact hx y hy'

theorem sortedById_nodup_ids {s : List QueueItem} (h : SortedById s) :
    (s.map QueueItem.id).Nodup := by
  show List.Pairwise (fun a b => a ≠ b) (s.map QueueItem.id)
  rw [List.pairwise_map]
  exact h.imp fun hab e => ne_of_lt hab (congrArg String.data e)

theorem putItem_filter_id {s : List QueueItem} (it : QueueItem)
    (h : SortedById s) :
    (putItem s it).filter (fun x => x.id = it.id) = [it] := by
  induction s with
  | nil => simp [putItem]
  | cons x xs ih =>
    rw [SortedById, List.pairwise_cons] at h
    obtain ⟨hx, hxs⟩ := h
    by_cases h1 : it.id.data < x.id.data
    · have he : putItem (x :: xs) it = it :: x :: xs := by
        simp [putItem, h1]
      rw [he]
      have hnil : (x :: xs).filter (fun y => y.id = it.id) = [] := by
        rw [List.filter_eq_nil_iff]
        intro a ha
        rcases List.mem_cons.mp ha with rfl | ha'
        · simp only [decide_eq_true_eq]
          exact fun e => ne_of_gt h1 (congrArg String.data e)
        · simp only [decide_eq_true_eq]
          exact fun e => ne_of_gt (lt_trans h1 (hx a ha')) (congrArg String.data e)
      rw [List.filter_cons_of_pos (by simp), hnil]
    · by_cases h2 : it.id = x.id
      · have he : putItem (x :: xs) it = it :: xs := by
          simp [putItem, h1, h2]
        rw [he]
        have hnil : xs.filter (fun y => y.id = it.id) = [] := by
          rw [List.filter_eq_nil_iff]
          intro a ha
          simp only [decide_eq_true_eq]
          have hlt : it.id.data < a.id.data := by
            rw [h2]
            exact hx a ha
          exact fun e => ne_of_gt hlt (congrArg String.data e)
        rw [List.filter_cons_of_pos (by simp), hnil]
      · have he : putItem (x :: xs) it = x :: putItem xs it := by
          simp [putItem, h1, h2]
        rw [he]
        have hxne : x.id ≠ it.id := fun e => h2 e.symm
        rw [List.filter_cons_of_neg (by simp [hxne]), ih hxs]

/-- C6: `enqueueCheckout` upserts on `id` with last-write-wins. Starting from
any store satisfying the key-order invariant, enqueuing two payloads with the
same id keeps the invariant after each step (so the store never holds two
items with one id), and afterwards the store holds exactly one item for that
id, carrying the second payload and its enqueue time. -/
theorem enqueue_upsert_C6 (store : List QueueItem) (p₁ p₂ : Payload)
    (t₁ t₂ : Int) (hs : SortedById store) (_hid : p₁.id = p₂.id) :
    SortedById (enqueueCheckout p₁ t₁ store)
    ∧ ((enqueueCheckout p₁ t₁ store).map QueueItem.id).Nodup
    ∧ SortedById (enqueueCheckout p₂ t₂ (enqueueCheckout p₁ t₁ store))
    ∧ ((enqueueCheckout p₂ t₂ (enqueueCheckout p₁ t₁ store)).map
        QueueItem.id).Nodup
    ∧ (enqueueCheckout p₂ t₂ (enqueueCheckout p₁ t₁ store)).filter
        (fun i => i.id = p₂.id) =
      [{ id := p₂.id, payload := p₂, queuedAt := t₂ }] := by
  have h1 : SortedById (enqueueCheckout p₁ t₁ store) := putItem_sorted _ hs
  have h2 : SortedById (enqueueCheckout p₂ t₂ (enqueueCheckout p₁ t₁ store)) :=
    putItem_sorted _ h1
  refine ⟨h1, sortedById_nodup_ids h1, h2, sortedById_nodup_ids h2, ?_⟩
  exact putItem_filter_id { id := p₂.id, payload := p₂, queuedAt := t₂ } h1

/-- The store obtained by enqueuing id `k` with payload body `v1`, then again
with body `v2`. -/
def demoStoreC6 : List QueueItem :=
  enqueueCheckout { id := "k", body := "v2" } 2
    (enqueueCheckout { id := "k", body := "v1" } 1 [])

/-- Witness for C6: after the double enqueue of id `k` the store holds
exactly the one item with the second payload. -/
theorem enqueue_upsert_C6_witness :
    demoStoreC6.filter (fun i => i.id = "k") =
      [{ id := "k", payload := { id := "k", body := "v2" }, queuedAt := 2 }] :=
  (enqueue_upsert_C6 [] { id := "k", body := "v1" } { id := "k", body := "v2" }
    1 2 List.Pairwise.nil rfl).2.2.2.2

/-- A store holding two items whose caller-supplied ids order against their
enqueue times: id `b` enqueued at time 1, id `a` at time 2. -/
def demoStoreC7 : List QueueItem :=
  enqueueCheckout { id := "a", body := "late" } 2
    (enqueueCheckout { id := "b", body := "early" } 1 [])

/-- Counterexample to C7 as stated: `getAll` returns the records in id (key)
order, so for this store the returned sequence is not ordered by `queuedAt`
ascending. -/
theorem listAll_not_queuedAt_order_C7cex :
    ¬ List.Pairwise (fun a b => a.queuedAt ≤ b.queuedAt)
        (getAllQueuedCheckouts demoStoreC7) := by
  intro h
  have he : getAllQueuedCheckouts demoStoreC7 =
      [{ id := "a", payload := { id := "a", body := "late" }, queuedAt := 2 },
       { id := "b", payload := { id := "b", body := "early" }, queuedAt := 1 }] := by
    decide
  rw [he, List.pairwise_cons] at h
  exact absurd (h.1 _ (List.mem_cons_self _ _)) (by decide)

/-- C7 amended: for every store satisfying the key-order invariant, the
full-queue read used by a replay pass returns the stored items ordered by
`id` ascending (IndexedDB key order) — the order replay attempts them in —
and that invariant is preserved by every enqueue; the returned sequence is
additionally ordered by `queuedAt` ascending whenever id order agrees with
enqueue-time order on the stored items (as with the client's
time-derived order ids). -/
theorem listAll_id_order_C7 (store : List QueueItem) (hs : SortedById store) :
    List.Pairwise (fun a b => a.id.data < b.id.data)
      (getAllQueuedCheckouts store)
    ∧ (∀ p t, SortedById (enqueueCheckout p t store))
    ∧ ((∀ a ∈ store, ∀ b ∈ store, a.id.data < b.id.data →
          a.queuedAt ≤ b.queuedAt) →
        List.Pairwise (fun a b => a.queuedAt ≤ b.queuedAt)
          (getAllQueuedCheckouts store)) := by
  refine ⟨hs, fun p t => putItem_sorted _ hs, fun hmono => ?_⟩
  exact List.Pairwise.imp_of_mem (fun ha hb hlt => hmono _ ha _ hb hlt) hs

/-- Witness for the amended C7 at the two-item store above: the returned
sequence is in ascending id order. -/
theorem listAll_id_order_C7_witness :
    List.Pairwise (fun a b => a.id.data < b.id.data)
      (getAllQueuedCheckouts demoStoreC7) :=
  (listAll_id_order_C7 demoStoreC7
    (putItem_sorted _ (putItem_sorted _ List.Pairwise.nil))).1

/-- Deleting the head item's id from a store whose remaining ids differ from
it removes exactly the head. -/
theorem deleteQueuedCheckout_head {item : QueueItem} {rest : List QueueItem}
    (h : item.id ∉ rest.map QueueItem.id) :
    deleteQueuedCheckout (item :: rest) item.id = rest := by
  rw [deleteQueuedCheckout, List.filter_cons_of_neg (by simp)]
  refine List.filter_eq_self.mpr fun a ha => ?_
  have hne : a.id ≠ item.id :=
    fun e => h (e ▸ List.mem_map_of_mem QueueItem.id ha)
  simpa using hne

/-- The replay loop over a queue of fresh (unexpired) items with distinct
ids: the longest prefix of items the network accepts is deleted, one
successful completion event per accepted item is emitted in queue order, and
the loop stops at the first rejected item, leaving it and everything after it
in the store untouched. -/
theorem processItems_fresh (now : Int) (submit : Payload → Bool)
    (l : List QueueItem) (hfresh : ∀ i ∈ l, itemExpired now i = false)
    (hnodup : (l.map QueueItem.id).Nodup) :
    processItems now submit l l =
      (l.drop (l.takeWhile (fun i => submit i.payload)).length,
       (l.takeWhile (fun i => submit i.payload)).map
         (fun i => SWEvent.syncComplete true i.payload none)) := by
  induction l with
  | nil => simp [processItems]
  | cons item rest ih =>
    have hexp : itemExpired now item = false :=
      hfresh item (List.mem_cons_self _ _)
    have hnd : item.id ∉ rest.map QueueItem.id := (List.nodup_cons.mp hnodup).1
    have hdel : deleteQueuedCheckout (item :: rest) item.id = rest :=
      deleteQueuedCheckout_head hnd
    by_cases hs : submit item.payload
    · have ihrest := ih (fun i hi => hfresh i (List.mem_cons_of_mem _ hi))
        (List.nodup_cons.mp hnodup).2
      simp only [processItems, hexp, hs, Bool.false_eq_true, if_false, if_true,
        hdel, ihrest]
      simp [List.takeWhile_cons, hs]
    · have hsf : submit item.payload = false := Bool.eq_false_iff.mpr hs
      simp only [processItems, hexp, hsf, Bool.false_eq_true, if_false]
      simp [List.takeWhile_cons, hsf]

/-- C1: over a non-empty queue of fresh items with distinct ids, a single
replay pass attempts the items in queue order; every item the remote
submit-order write accepts is deleted from the store and produces a
successful completion event carrying its original payload, in order;
processing stops at the first item whose remote write fails, leaving it and
every later item queued with no event; and the pass ends with one
pending-count status equal to the remaining queue length. -/
theorem replay_pass_order_C1 (now : Int) (submit : Payload → Bool)
    (store : List QueueItem) (hne : store ≠ [])
    (hfresh : ∀ i ∈ store, itemExpired now i = false)
    (hnodup : (store.map QueueItem.id).Nodup) :
    processCheckoutQueue now submit store =
      (store.drop (store.takeWhile (fun i => submit i.payload)).length,
       (store.takeWhile (fun i => submit i.payload)).map
         (fun i => SWEvent.syncComplete true i.payload none)
       ++ [SWEvent.syncPending
            (store.length
              - (store.takeWhile (fun i => submit i.payload)).length)]) := by
  have hne' : store.isEmpty = false := by
    cases store with
    | nil => exact absurd rfl hne
    | cons x xs => rfl
  rw [processCheckoutQueue]
  simp only [getAllQueuedCheckouts, hne', Bool.false_eq_true, if_false,
    processItems_fresh now submit store hfresh hnodup]
  simp [List.length_drop]

/-- Queue items for the ordering scenario: ids `a`, `b`, `c` queued in that
order. -/
def itemAC1 : QueueItem :=
  { id := "a", payload := { id := "a", body := "pa" }, queuedAt := 10 }

def itemBC1 : QueueItem :=
  { id := "b", payload := { id := "b", body := "pb" }, queuedAt := 11 }

def itemCC1 : QueueItem :=
  { id := "c", payload := { id := "c", body := "pc" }, queuedAt := 12 }

/-- A network where the order endpoint rejects payload `b` and accepts
everything else. -/
def submitC1 : Payload → Bool := fun p => p.id ≠ "b"

/-- Witness for C1, the spec's ordering scenario: with A, B, C queued and
B's remote write failing, one pass completes A, leaves B and C queued, and
reports pending count 2. -/
theorem replay_pass_order_C1_witness :
    processCheckoutQueue 20 submitC1 [itemAC1, itemBC1, itemCC1] =
      ([itemBC1, itemCC1],
       [SWEvent.syncComplete true itemAC1.payload none,
        SWEvent.syncPending 2]) := by
  have h := replay_pass_order_C1 20 submitC1 [itemAC1, itemBC1, itemCC1]
    (by decide) (by decide) (by decide)
  exact h.trans (by decide)

/-- C4: when the head of the remaining queue is older than the 72-hour
threshold, the replay loop deletes it, emits a failed completion event
tagged `reason = "expired"`, and continues with the rest of the queue; no
remote write is consulted for it (the first emitted event is the expired one
whatever the network oracle says); and the expiry test is exactly
`now - queuedAt` exceeding 72 hours. -/
theorem expiry_drop_C4 (now : Int) (submit : Payload → Bool)
    (item : QueueItem) (rest store : List QueueItem)
    (h : itemExpired now item = true) :
    processItems now submit store (item :: rest) =
      ((processItems now submit (deleteQueuedCheckout store item.id) rest).1,
       SWEvent.syncComplete false item.payload (some "expired")
         :: (processItems now submit (deleteQueuedCheckout store item.id) rest).2)
    ∧ (∀ submit' : Payload → Bool,
        (processItems now submit' store (item :: rest)).2.head? =
          some (SWEvent.syncComplete false item.payload (some "expired")))
    ∧ (itemExpired now item = true ↔
        now - item.queuedAt > 72 * 60 * 60 * 1000) := by
  refine ⟨?_, fun submit' => ?_, ?_⟩
  · simp [processItems, h]
  · simp [processItems, h]
  · simp [itemExpired]

/-- An item queued 73 hours before the replay pass. -/
def expiredItemC4 : QueueItem :=
  { id := "old", payload := { id := "old", body := "stale" }, queuedAt := 0 }

/-- Witness for C4: at `now = 73h` (in ms) the pass over the queue holding
only that item reports it expired first, even on a network that fails every
request. -/
theorem expiry_drop_C4_witness :
    (processItems (73 * 60 * 60 * 1000) (fun _ => false) [expiredItemC4]
        [expiredItemC4]).2.head? =
      some (SWEvent.syncComplete false expiredItemC4.payload
        (some "expired")) :=
  (expiry_drop_C4 (73 * 60 * 60 * 1000) (fun _ => false) expiredItemC4 []
    [expiredItemC4] (by decide)).2.1 (fun _ => false)

/-- Boolean form of negating a strict integer comparison. -/
theorem not_decide_lt {a b : Int} : (!decide (a < b)) = decide (b ≤ a) := by
  rw [← decide_not]
  exact decide_eq_decide.mpr not_lt

/-- The per-subscription filter of the code coincides with the spec's
predicate once the expiration bound is read as `≥ now`. -/
theorem eligible_eq_specGe (now currentMinutes : Int)
    (category : NotificationCategory) (sub : Subscription) :
    eligibleSubscription now currentMinutes category sub =
      audienceFilterSpecGe sub category now currentMinutes := by
  rcases sub with ⟨ep, pref, exp⟩
  cases pref with
  | none => rfl
  | some p =>
    cases hm : p.mutedUntil with
    | none =>
      cases exp with
      | none =>
        simp [eligibleSubscription, audienceFilterSpecGe, isTemporarilyMuted,
          hm]
      | some e =>
        simp [eligibleSubscription, audienceFilterSpecGe, isTemporarilyMuted,
          hm, not_decide_lt, ge_iff_le]
    | some m =>
      cases exp with
      | none =>
        simp [eligibleSubscription, audienceFilterSpecGe, isTemporarilyMuted,
          hm, not_decide_lt, gt_iff_lt]
      | some e =>
        simp [eligibleSubscription, audienceFilterSpecGe, isTemporarilyMuted,
          hm, not_decide_lt, gt_iff_lt, ge_iff_le]

/-- Preferences with every category opted in and no quiet hours or mute. -/
def openPrefs : Preferences :=
  { flashSales := true, newArrivals := true, priceDrops := true,
    backInStock := true, quietHours := none, mutedUntil := none }

/-- A subscription whose `expirationTime` equals the dispatch instant. -/
def edgeSubC2 : Subscription :=
  { endpoint := "edge", preferences := some openPrefs,
    expirationTime := some 100 }

/-- Counterexample to C2 as stated: at `now = 100` the code keeps a
subscription whose `expirationTime` is exactly `now` (the source only
excludes `expirationTime < now`), while the spec's predicate, which demands
`expirationTime > now`, rejects it. -/
theorem audience_filter_C2cex :
    filterEligibleSubscriptions [edgeSubC2] NotificationCategory.flashSales
        100 0 = [edgeSubC2]
    ∧ audienceFilterSpec edgeSubC2 NotificationCategory.flashSales 100 0
        = false := by
  decide

/-- C2 amended: the audience filter is a pure predicate; a subscription is
kept for category `C` at instant `now` (with local wall-clock
`currentMinutes`) iff it is among the inputs, `preferences[C]` is true,
`mutedUntil` is null or `≤ now`, it is not within quiet hours, and
`expirationTime` is null or `≥ now` (the spec's strict `> now` weakened to
`≥` at the expiry instant itself). -/
theorem audience_filter_C2 (subs : List Subscription) (sub : Subscription)
    (category : NotificationCategory) (now currentMinutes : Int) :
    sub ∈ filterEligibleSubscriptions subs category now currentMinutes ↔
      sub ∈ subs
      ∧ audienceFilterSpecGe sub category now currentMinutes = true := by
  rw [filterEligibleSubscriptions, List.mem_filter, eligible_eq_specGe]

/-- C5: with the quiet-hours window configured, the containment check is
skipped (never "within") when `enabled` is false or when `start`/`end` do
not parse as `HH:MM`; with valid bounds and `enabled`, a straight window
`start ≤ end` contains `current` iff `start ≤ current < end`, and a
midnight-wrapping window `start > end` contains it iff `current ≥ start` or
`current < end`. -/
theorem quiet_hours_C5 (p : Preferences) (q : QuietHours)
    (hq : p.quietHours = some q) (currentMinutes : Int) :
    (q.enabled = false → isWithinQuietHours (some p) currentMinutes = false)
    ∧ ((minutesFromHHMM q.startHHMM = none ∨ minutesFromHHMM q.endHHMM = none)
        → isWithinQuietHours (some p) currentMinutes = false)
    ∧ (∀ start final : Int, q.enabled = true →
        minutesFromHHMM q.startHHMM = some start →
        minutesFromHHMM q.endHHMM = some final →
        start ≤ final →
        (isWithinQuietHours (some p) currentMinutes = true ↔
          start ≤ currentMinutes ∧ currentMinutes < final))
    ∧ (∀ start final : Int, q.enabled = true →
        minutesFromHHMM q.startHHMM = some start →
        minutesFromHHMM q.endHHMM = some final →
        final < start →
        (isWithinQuietHours (some p) currentMinutes = true ↔
          currentMinutes ≥ start ∨ currentMinutes < final)) := by
  refine ⟨?_, ?_, ?_, ?_⟩
  · intro hen
    simp [isWithinQuietHours, hq, hen]
  · intro hmal
    cases hen : q.enabled with
    | false => simp [isWithinQuietHours, hq, hen]
    | true =>
      rcases hmal with hs | he
      · simp [isWithinQuietHours, hq, hen, hs]
      · cases hs' : minutesFromHHMM q.startHHMM with
        | none => simp [isWithinQuietHours, hq, hen, hs', he]
        | some s => simp [isWithinQuietHours, hq, hen, hs', he]
  · intro start final hen hs he hle
    simp [isWithinQuietHours, hq, hen, hs, he, hle, ge_iff_le]
  · intro start final hen hs he hlt
    simp [isWithinQuietHours, hq, hen, hs, he, not_le.mpr hlt, ge_iff_le]

/-- The spec's wraparound window: 22:00 to 08:00, enabled. -/
def demoQuietC5 : QuietHours :=
  { enabled := true, startHHMM := "22:00", endHHMM := "08:00" }

/-- Preferences carrying the wraparound quiet-hours window. -/
def demoPrefsC5 : Preferences :=
  { flashSales := true, newArrivals := true, priceDrops := true,
    backInStock := true, quietHours := some demoQuietC5, mutedUntil := none }

/-- Witness for C5: with the 22:00–08:00 window, local time 23:30 is within
quiet hours and 09:00 is not. -/
theorem quiet_hours_C5_witness :
    isWithinQuietHours (some demoPrefsC5) (23 * 60 + 30) = true
    ∧ isWithinQuietHours (some demoPrefsC5) (9 * 60) = false := by
  constructor
  · exact ((quiet_hours_C5 demoPrefsC5 demoQuietC5 rfl (23 * 60 + 30)).2.2.2
      1320 480 rfl (by decide) (by decide) (by decide)).mpr (by decide)
  · decide

/-- A subscription opted into every category, forming the dispatch
audience. -/
def subC3 : Subscription :=
  { endpoint := "ep1", preferences := some openPrefs,
    expirationTime := none }

/-- A persisted scheduled campaign with identity `c1`. -/
def campC3 : Campaign :=
  { dbId := some "c1", campaignId := "camp-1", notificationId := "n1",
    category := NotificationCategory.flashSales, title := "t", body := "b",
    url := "/", ttl := none, sendAt := none, status := "scheduled",
    sentAt := none, successCount := none, audienceCount := none }

/-- Server state holding that one subscription and campaign. -/
def stateC3 : ServerState :=
  { subscriptions := [subC3], campaigns := [campC3], campaignEvents := [],
    pushLog := [] }

/-- The state after one `dispatchCampaign` call on a healthy transport. -/
def afterFirstDispatchC3 : ServerState :=
  dispatchCampaign (fun _ => PushOutcome.ok) 0 0 campC3 stateC3

/-- The state after dispatching the same campaign identity a second time. -/
def afterSecondDispatchC3 : ServerState :=
  dispatchCampaign (fun _ => PushOutcome.ok) 0 0 campC3 afterFirstDispatchC3

/-- C3 fails on the code: the first dispatch stores `status = "sent"` for
campaign `c1`, yet the second `dispatchCampaign` call for the same campaign
identity is not a no-op — the function never consults the stored status, so
it pushes to the whole eligible audience again (the push log doubles) and
rewrites the final counts. -/
theorem dispatch_twice_resends_C3 :
    afterFirstDispatchC3.campaigns.map Campaign.status = ["sent"]
    ∧ afterFirstDispatchC3.pushLog.length = 1
    ∧ afterSecondDispatchC3.pushLog.length = 2
    ∧ afterSecondDispatchC3 ≠ afterFirstDispatchC3 := by
  decide

/-- C9 fails on the code: the sw.js listeners consult no in-progress flag
(none exists), so a `TRIGGER_CHECKOUT_SYNC` message or a `checkout-sync`
background-sync event arriving while one replay pass is already in flight
starts a second concurrent pass over the same store instead of being dropped
or deferred. -/
theorem trigger_no_single_flight_C9 :
    messageStartsReplay WorkerMessage.triggerCheckoutSync = true
    ∧ onTriggerMessage 1 WorkerMessage.triggerCheckoutSync = 2
    ∧ onSyncEvent 1 "checkout-sync" = 2 := by
  decide

/-- Setting a timer under a key makes that key's lookup return its fire
instant. -/
theorem registrySet_get_same (reg : TimerRegistry) (key : String) (t : Int) :
    registryGet (registrySet reg key t) key = some t := by
  induction reg with
  | nil => simp [registrySet, registryGet]
  | cons e rest ih =>
    by_cases h : e.1 = key
    · simp [registrySet, h, registryGet]
    · rw [registrySet, if_neg h, registryGet,
        List.find?_cons_of_neg _ (by simpa using h)]
      exact ih

/-- Setting a timer under one key leaves every other key's lookup
unchanged. -/
theorem registrySet_get_other (reg : TimerRegistry) (key key' : String)
    (t : Int) (h : key' ≠ key) :
    registryGet (registrySet reg key t) key' = registryGet reg key' := by
  induction reg with
  | nil =>
    have hk : ¬ ((key, t).1 = key') := fun e => h e.symm
    rw [registrySet, registryGet,
      List.find?_cons_of_neg _ (by simpa using hk)]
    rfl
  | cons e rest ih =>
    by_cases he : e.1 = key
    · have hk1 : ¬ ((key, t).1 = key') := fun e' => h e'.symm
      have hk2 : ¬ (e.1 = key') := fun e' => h (e'.symm.trans he)
      rw [registrySet, if_pos he, registryGet,
        List.find?_cons_of_neg _ (by simpa using hk1),
        registryGet, List.find?_cons_of_neg _ (by simpa using hk2)]
    · rw [registrySet, if_neg he]
      by_cases he' : e.1 = key'
      · rw [registryGet, List.find?_cons_of_pos _ (by simpa using he'),
          registryGet, List.find?_cons_of_pos _ (by simpa using he')]
      · rw [registryGet, List.find?_cons_of_neg _ (by simpa using he'),
          registryGet, List.find?_cons_of_neg _ (by simpa using he')]
        exact ih

/-- Scheduling one campaign does not touch timers registered under other
keys. -/
theorem schedule_get_other (now : Int) (c : Campaign) (reg : TimerRegistry)
    (key : String) (h : campaignKey c ≠ key) :
    registryGet (scheduleCampaignDispatch now c reg).registry key =
      registryGet reg key := by
  cases hs : c.sendAt with
  | none =>
    simp only [scheduleCampaignDispatch, hs]
    exact registrySet_get_other reg (campaignKey c) key now (Ne.symm h)
  | some t =>
    simp only [scheduleCampaignDispatch, hs]
    by_cases hd : t - now ≤ 0
    · rw [if_pos hd]
    · rw [if_neg hd]
      exact registrySet_get_other reg (campaignKey c) key t (Ne.symm h)

/-- A campaign only lands in the immediately-dispatched list of a scheduling
call when it is the scheduled campaign and its `sendAt` is already due. -/
theorem schedule_immediate_mem (now : Int) (x : Campaign)
    (reg : TimerRegistry) (d : Campaign)
    (h : d ∈ (scheduleCampaignDispatch now x reg).immediate) :
    d = x ∧ ∃ t, x.sendAt = some t ∧ t - now ≤ 0 := by
  cases hs : x.sendAt with
  | none => simp [scheduleCampaignDispatch, hs] at h
  | some t =>
    simp only [scheduleCampaignDispatch, hs] at h
    by_cases hd : t - now ≤ 0
    · rw [if_pos hd] at h
      simp only [List.mem_singleton] at h
      exact ⟨h, t, rfl, hd⟩
    · rw [if_neg hd] at h
      simp at h

/-- Arming a list of campaigns none of which registers under `key` leaves
`key`'s timer unchanged. -/
theorem armAll_get_of_not_mem (now : Int) (l : List Campaign)
    (key : String) :
    ∀ acc : ScheduleResult, (∀ c ∈ l, campaignKey c ≠ key) →
      registryGet (armAll now l acc).registry key =
        registryGet acc.registry key := by
  induction l with
  | nil => intro acc _; rfl
  | cons c rest ih =>
    intro acc h
    have step : armAll now (c :: rest) acc = armAll now rest
        { registry := (scheduleCampaignDispatch now c acc.registry).registry,
          immediate := acc.immediate ++
            (scheduleCampaignDispatch now c acc.registry).immediate } := rfl
    rw [step, ih _ (fun d hd => h d (List.mem_cons_of_mem _ hd))]
    exact schedule_get_other now c acc.registry key
      (h c (List.mem_cons_self _ _))

/-- Arming a list of campaigns with pairwise-distinct keys registers a
future campaign's timer at its own `sendAt`. -/
theorem armAll_get_of_mem (now : Int) (l : List Campaign) (c : Campaign)
    (t : Int) (hsend : c.sendAt = some t) (hfut : now < t) :
    ∀ acc : ScheduleResult, c ∈ l → (l.map campaignKey).Nodup →
      registryGet (armAll now l acc).registry (campaignKey c) = some t := by
  induction l with
  | nil => intro acc hc _; cases hc
  | cons x rest ih =>
    intro acc hc hnd
    have step : armAll now (x :: rest) acc = armAll now rest
        { registry := (scheduleCampaignDispatch now x acc.registry).registry,
          immediate := acc.immediate ++
            (scheduleCampaignDispatch now x acc.registry).immediate } := rfl
    rcases List.mem_cons.mp hc with rfl | hc'
    · have hkeys : ∀ d ∈ rest, campaignKey d ≠ campaignKey c := by
        intro d hd e
        exact (List.nodup_cons.mp hnd).1
          (e ▸ List.mem_map_of_mem campaignKey hd)
      rw [step, armAll_get_of_not_mem now rest _ _ hkeys]
      show registryGet
        (scheduleCampaignDispatch now c acc.registry).registry
        (campaignKey c) = some t
      simp only [scheduleCampaignDispatch, hsend]
      rw [if_neg (by omega)]
      exact registrySet_get_same acc.registry (campaignKey c) t
    · rw [step]
      exact ih _ hc' (List.nodup_cons.mp hnd).2

/-- A campaign found in the immediately-dispatched list of an arming pass
was either already there or is a member of the list whose `sendAt` was
already due. -/
theorem armAll_immediate_mem (now : Int) (l : List Campaign) :
    ∀ (acc : ScheduleResult) (d : Campaign),
      d ∈ (armAll now l acc).immediate →
      d ∈ acc.immediate
      ∨ (d ∈ l ∧ ∃ t, d.sendAt = some t ∧ t - now ≤ 0) := by
  induction l with
  | nil => intro acc d hd; exact Or.inl hd
  | cons x rest ih =>
    intro acc d hd
    have step : armAll now (x :: rest) acc = armAll now rest
        { registry := (scheduleCampaignDispatch now x acc.registry).registry,
          immediate := acc.immediate ++
            (scheduleCampaignDispatch now x acc.registry).immediate } := rfl
    rw [step] at hd
    rcases ih _ _ hd with hacc | ⟨hmem, ht⟩
    · rcases List.mem_append.mp hacc with h1 | h2
      · exact Or.inl h1
      · obtain ⟨rfl, t, hst, hdue⟩ :=
          schedule_immediate_mem now x acc.registry d h2
        exact Or.inr ⟨List.mem_cons_self _ _, t, hst, hdue⟩
    · exact Or.inr ⟨List.mem_cons_of_mem _ hmem, ht⟩

/-- C8: on process start the scheduler rehydrates — for every persisted
campaign with `status = "scheduled"` and a future `sendAt` (keys pairwise
distinct), bootstrapping re-arms a deferred trigger firing at exactly the
original `sendAt` under the campaign's key, and the campaign is not among
those dispatched immediately. -/
theorem bootstrap_rehydrate_C8 (now : Int) (campaigns : List Campaign)
    (c : Campaign) (t : Int) (hmem : c ∈ campaigns)
    (hnd : (campaigns.map campaignKey).Nodup)
    (hstatus : c.status = "scheduled") (hsend : c.sendAt = some t)
    (hfut : now < t) :
    registryGet (bootstrapCampaignScheduler now campaigns).registry
        (campaignKey c) = some t
    ∧ c ∉ (bootstrapCampaignScheduler now campaigns).immediate := by
  have hup : isUpcoming now c = true := by
    simp only [isUpcoming, hstatus, hsend]
    simp
    omega
  have hmemf : c ∈ campaigns.filter (isUpcoming now) :=
    List.mem_filter.mpr ⟨hmem, hup⟩
  have hndf : ((campaigns.filter (isUpcoming now)).map campaignKey).Nodup :=
    List.Nodup.sublist
      (List.Sublist.map campaignKey (List.filter_sublist campaigns)) hnd
  refine ⟨armAll_get_of_mem now _ c t hsend hfut _ hmemf hndf, fun hin => ?_⟩
  rcases armAll_immediate_mem now _ _ c hin with h0 | ⟨_, t', hst, hdue⟩
  · simp at h0
  · rw [hsend] at hst
    injection hst with he
    omega

/-- A persisted scheduled campaign with `sendAt = 1000`, rehydrated at
process start time 0. -/
def campC8 : Campaign :=
  { dbId := some "s1", campaignId := "camp-8", notificationId := "n8",
    category := NotificationCategory.newArrivals, title := "t", body := "b",
    url := "/", ttl := none, sendAt := some 1000, status := "scheduled",
    sentAt := none, successCount := none, audienceCount := none }

/-- Witness for C8: bootstrapping at time 0 re-arms campaign `s1` to fire at
its original `sendAt`, 1000. -/
theorem bootstrap_rehydrate_C8_witness :
    registryGet (bootstrapCampaignScheduler 0 [campC8]).registry "s1" =
      some 1000 :=
  (bootstrap_rehydrate_C8 0 [campC8] campC8 1000
    (List.mem_singleton.mpr rfl) (by simp) rfl rfl (by decide)).1

/-- An element of an upserted orders list is the new record or an old one. -/
theorem upsertOrder_mem {orders : List OrderRecord} {r x : OrderRecord}
    (h : x ∈ upsertOrder orders r) : x = r ∨ x ∈ orders := by
  induction orders with
  | nil => simpa [upsertOrder] using h
  | cons o rest ih =>
    by_cases ho : o.id = r.id
    · simp only [upsertOrder, if_pos ho, List.mem_cons] at h
      rcases h with h | h
      · exact Or.inl h
      · exact Or.inr (List.mem_cons_of_mem _ h)
    · simp only [upsertOrder, if_neg ho, List.mem_cons] at h
      rcases h with h | h
      · exact Or.inr (List.mem_cons.mpr (Or.inl h))
      · rcases ih h with h' | h'
        · exact Or.inl h'
        · exact Or.inr (List.mem_cons_of_mem _ h')

/-- Upserting preserves distinctness of the stored order ids. -/
theorem upsertOrder_ids_nodup (orders : List OrderRecord) (r : OrderRecord)
    (h : (orders.map OrderRecord.id).Nodup) :
    ((upsertOrder orders r).map OrderRecord.id).Nodup := by
  induction orders with
  | nil => simp [upsertOrder]
  | cons o rest ih =>
    obtain ⟨ho, hrest⟩ := List.nodup_cons.mp h
    by_cases he : o.id = r.id
    · rw [upsertOrder, if_pos he]
      rw [List.map_cons, List.nodup_cons]
      exact ⟨he ▸ ho, hrest⟩
    · rw [upsertOrder, if_neg he]
      rw [List.map_cons, List.nodup_cons]
      refine ⟨fun hin => ?_, ih hrest⟩
      rcases List.mem_map.mp hin with ⟨x, hx, hxid⟩
      rcases upsertOrder_mem hx with rfl | hx'
      · exact he hxid.symm
      · exact ho (hxid ▸ List.mem_map_of_mem OrderRecord.id hx')

/-- After an upsert on a store with distinct ids, exactly one stored order
carries the upserted id. -/
theorem upsertOrder_count (orders : List OrderRecord) (r : OrderRecord)
    (h : (orders.map OrderRecord.id).Nodup) :
    (upsertOrder orders r).countP (fun o => o.id = r.id) = 1 := by
  induction orders with
  | nil => simp [upsertOrder]
  | cons o rest ih =>
    obtain ⟨ho, hrest⟩ := List.nodup_cons.mp h
    by_cases he : o.id = r.id
    · rw [upsertOrder, if_pos he]
      have hzero : rest.countP (fun o => o.id = r.id) = 0 := by
        rw [List.countP_eq_zero]
        intro a ha
        simp only [decide_eq_true_eq]
        intro hai
        exact ho (he ▸ hai ▸ List.mem_map_of_mem OrderRecord.id ha)
      rw [List.countP_cons, hzero]
      simp
    · rw [upsertOrder, if_neg he]
      rw [List.countP_cons, ih hrest]
      simp [he]

/-- C10: the order endpoint is idempotent on the order id. A payload with no
id is rejected with a 400 and the store is untouched; a payload with id `i`
is answered 200 with `{ id := i, status := "processed", processedAt := now }`
and upserted so that (on a store with distinct ids) exactly one stored order
carries id `i` afterwards and id distinctness is preserved — replaying an
already-processed checkout overwrites rather than duplicates. -/
theorem orders_idempotent_C10 (now : Int) (corrId : String)
    (p : OrderPayload) (orders : List OrderRecord)
    (h : (orders.map OrderRecord.id).Nodup) :
    (p.id = none →
      postOrders now corrId p orders = (OrdersResult.badRequest, orders))
    ∧ (∀ i, p.id = some i →
        (postOrders now corrId p orders).1 =
          OrdersResult.ok i "processed" now
        ∧ ((postOrders now corrId p orders).2.map OrderRecord.id).Nodup
        ∧ (postOrders now corrId p orders).2.countP
            (fun o => o.id = i) = 1) := by
  refine ⟨fun hn => by simp [postOrders, hn], fun i hi => ?_⟩
  refine ⟨by simp [postOrders, hi], ?_, ?_⟩
  · simp only [postOrders, hi]
    exact upsertOrder_ids_nodup orders _ h
  · simp only [postOrders, hi]
    exact upsertOrder_count orders
      { id := i,
        createdAt := match p.createdAt with
          | some t => t
          | none => now,
        processedAt := now, status := "processed",
        correlationId := corrId, rest := p.rest } h

/-- The replayed checkout payload with order id `o1`. -/
def payloadC10 : OrderPayload :=
  { id := some "o1", createdAt := none, rest := "cart" }

/-- The orders store after the first submission of that payload. -/
def ordersAfterFirstC10 : List OrderRecord :=
  (postOrders 3 "corr1" payloadC10 []).2

/-- Witness for C10: replaying the same order id against the store that
already processed it answers 200 with the processed summary and still leaves
exactly one stored order with that id. -/
theorem orders_idempotent_C10_witness :
    (postOrders 7 "corr2" payloadC10 ordersAfterFirstC10).1 =
      OrdersResult.ok "o1" "processed" 7
    ∧ (postOrders 7 "corr2" payloadC10 ordersAfterFirstC10).2.countP
        (fun o => o.id = "o1") = 1 := by
  have h := (orders_idempotent_C10 7 "corr2" payloadC10 ordersAfterFirstC10
    (by decide)).2 "o1" rfl
  exact ⟨h.1, h.2.2⟩
